import Mathlib

/-!
Verification of `loc_by_language.py`: a shallow embedding of the tool's
data tables, path classifier, chunked newline counter, file-listing
fallback chain, and the `main` aggregation/reporting pipeline, together
with theorems settling the frozen specification claims.

Modelling conventions:
* A relative path is its list of components (`Path.parts`); `asPosix`
  joins them with `/` (`Path.as_posix()`); `pathName` is the final
  component (`Path.name`); `pySuffix` is CPython's `PurePath.suffix`.
* File bytes are `List Nat`; the newline byte is `10`.
* Filesystem and subprocess observations that the script makes are
  fields of explicit environment structures; fallible Python calls that
  the script leaves unhandled are `Except Unit` (an `error` value is an
  uncaught exception aborting the run).
-/

deriving instance DecidableEq for Except

/-- `EXTENSION_MAP` from the script, as an association list. -/
def EXTENSION_MAP : List (String × String) :=
  [(".py", "Python"), (".pyx", "Cython"), (".pxd", "Cython"), (".pxi", "Cython"),
   (".c", "C"), (".h", "C++"), (".hpp", "C++"), (".hh", "C++"), (".hxx", "C++"),
   (".cpp", "C++"), (".cc", "C++"), (".cxx", "C++"),
   (".f90", "Fortran"), (".f95", "Fortran"), (".f03", "Fortran"), (".f", "Fortran"),
   (".sh", "Shell"), (".bash", "Shell"), (".ps1", "PowerShell"),
   (".rst", "reStructuredText"), (".md", "Markdown"), (".toml", "TOML"),
   (".yaml", "YAML"), (".yml", "YAML"), (".json", "JSON"),
   (".ini", "Config"), (".cfg", "Config"), (".conf", "Config"),
   (".cmake", "CMake"), (".mk", "Makefile"), (".ipynb", "Jupyter Notebook"),
   (".txt", "Text")]

/-- `ROOT_FILENAME_MAP` from the script. -/
def ROOT_FILENAME_MAP : List (String × String) :=
  [("CMakeLists.txt", "CMake"), ("Makefile", "Makefile")]

/-- `CODE_LANGUAGES` from the script (a Python set; all elements distinct). -/
def CODE_LANGUAGES : List String := ["Python", "C++", "Cython", "C", "Fortran"]

/-- `Path.as_posix()` on a component list: components joined by `/`. -/
def asPosix : List String → String
  | [] => ""
  | [c] => c
  | c :: c2 :: rest => c ++ "/" ++ asPosix (c2 :: rest)

/-- `Path.name`: the final component (empty for the empty path). -/
def pathName : List String → String
  | [] => ""
  | [c] => c
  | _ :: c2 :: rest => pathName (c2 :: rest)

/-- Index of the last occurrence of `c` (Python `str.rfind`, `none` for `-1`). -/
def rfindChar (c : Char) : List Char → Nat → Option Nat
  | [], _ => none
  | x :: xs, i =>
    match rfindChar c xs (i + 1) with
    | some j => some j
    | none => if x = c then some i else none

/-- CPython `PurePath.suffix` of a name: `name[i:]` for `i = name.rfind(".")`
when `0 < i < len(name) - 1`, else the empty string. -/
def pySuffix (name : String) : String :=
  match rfindChar '.' name.data 0 with
  | some i => if 0 < i ∧ i < name.length - 1 then String.mk (name.data.drop i) else ""
  | none => ""

/-- Python `str.lower()`, character by character.  (`Char.toLower` matches
`str.lower()` on ASCII; every table key is ASCII, so a suffix holding a
non-ASCII uppercase letter misses the tables under both semantics.) -/
def pyLower (s : String) : String := String.mk (s.data.map Char.toLower)

/-- `language_for_path`: the root-relative filename override table is consulted
with the exact POSIX path string, else the extension table with the lowercased
suffix. -/
def language_for_path (p : List String) : Option String :=
  match ROOT_FILENAME_MAP.lookup (asPosix p) with
  | some lang => some lang
  | none => EXTENSION_MAP.lookup (pyLower (pySuffix (pathName p)))

/-- The words of spec §4.2, as a classifier over explicit tables. -/
def classifySpec (overrides exts : List (String × String)) (p : List String) :
    Option String :=
  match overrides.lookup (asPosix p) with
  | some lang => some lang
  | none => exts.lookup (pyLower (pySuffix (pathName p)))

/-- The script's read-chunk size, `1024 * 1024` bytes. -/
def CHUNK_SIZE : Nat := 1024 * 1024

/-- The chunks produced by `fh.read(1024 * 1024)` until `b""`; fuelled so the
definition is structural (`content.length` fuel always suffices). -/
def readChunksAux : Nat → List Nat → List (List Nat)
  | 0, _ => []
  | _ + 1, [] => []
  | fuel + 1, b :: bs =>
    (b :: bs).take CHUNK_SIZE :: readChunksAux fuel ((b :: bs).drop CHUNK_SIZE)

/-- The sequence of chunks the script reads from a file with these bytes. -/
def readChunks (content : List Nat) : List (List Nat) :=
  readChunksAux content.length content

/-- The loop body of `count_newlines`: sum of `chunk.count(b"\n")`. -/
def countNewlinesOfChunks (chunks : List (List Nat)) : Nat :=
  (chunks.map (fun c => c.count 10)).sum

/-- `count_newlines`: total newline bytes over the 1 MiB chunked read. -/
def count_newlines (content : List Nat) : Nat :=
  countNewlinesOfChunks (readChunks content)

theorem readChunksAux_flatten : ∀ (fuel : Nat) (content : List Nat),
    content.length ≤ fuel → (readChunksAux fuel content).flatten = content := by
  intro fuel
  induction fuel with
  | zero =>
    intro content h
    have : content = [] := List.eq_nil_of_length_eq_zero (Nat.le_zero.mp h)
    simp [this, readChunksAux]
  | succ n ih =>
    intro content h
    match content with
    | [] => simp [readChunksAux]
    | b :: bs =>
      have hlen : ((b :: bs).drop CHUNK_SIZE).length ≤ n := by
        simp only [List.length_drop, List.length_cons, CHUNK_SIZE]
        simp only [List.length_cons] at h
        omega
      simp only [readChunksAux, List.flatten_cons, ih _ hlen]
      exact List.take_append_drop CHUNK_SIZE (b :: bs)

/-- The chunked count equals the newline count of the flattened bytes. -/
theorem countNewlinesOfChunks_flatten (chunks : List (List Nat)) :
    countNewlinesOfChunks chunks = chunks.flatten.count 10 := by
  simp [countNewlinesOfChunks, List.count_flatten]

theorem count_newlines_eq_count (content : List Nat) :
    count_newlines content = content.count 10 := by
  rw [count_newlines, countNewlinesOfChunks_flatten, readChunks,
    readChunksAux_flatten content.length content (Nat.le_refl _)]

/-- Python `bytes.split(b"\x00")`: every zero byte is a separator and empty
pieces between consecutive separators are kept (the caller drops them). -/
def splitOnZero : List Nat → List (List Nat)
  | [] => [[]]
  | b :: bs =>
    if b = 0 then [] :: splitOnZero bs
    else
      match splitOnZero bs with
      | [] => [[b]]
      | g :: gs => (b :: g) :: gs

/-- `run_file_list_command`.  The subprocess observation is `none` when the
command is unavailable (`FileNotFoundError`) or exits non-zero
(`check=True` raising `CalledProcessError`), else `some stdout`.  The
per-entry conversion `Path(entry.decode("utf-8", errors="surrogateescape"))`
is abstracted as the `decode` argument; the claims do not depend on it. -/
def run_file_list_command (decode : List Nat → List String)
    (result : Option (List Nat)) : Option (List (List String)) :=
  match result with
  | none => none
  | some stdout => some (((splitOnZero stdout).filter (· ≠ [])).map decode)

/-- A directory tree: named subdirectories and names of regular files. -/
inductive FSDir : Type where
  | mk : List (String × FSDir) → List String → FSDir

/-- The manual `os.walk` fallback loop: the current directory's files first,
then each subdirectory in listed order, with every entry named `.git` pruned
(`dirnames.remove(".git")`; directory names are unique, so removing the first
occurrence and filtering coincide).  Paths come out relative to the root. -/
def FSDir.walk : FSDir → List (List String)
  | .mk subdirs files =>
    files.map (fun f => [f]) ++
      ((subdirs.filter (fun s => s.1 ≠ ".git")).attach.map
        (fun s => (FSDir.walk s.1.2).map (fun p => s.1.1 :: p))).flatten
decreasing_by
  have h4 : sizeOf s.1.2 < sizeOf s.1 := by
    rcases s with ⟨⟨n2, d2⟩, hs⟩
    simp only [Prod.mk.sizeOf_spec]
    omega
  have h3 := List.sizeOf_lt_of_mem (List.mem_of_mem_filter s.2)
  simp only [FSDir.mk.sizeOf_spec]
  omega

/-- Unfolding equation for `FSDir.walk` with the bookkeeping `attach`
removed, usable for rewriting and concrete evaluation. -/
theorem FSDir.walk_eq (subdirs : List (String × FSDir)) (files : List String) :
    FSDir.walk (.mk subdirs files) =
      files.map (fun f => [f]) ++
        ((subdirs.filter (fun s => s.1 ≠ ".git")).map
          (fun s => (FSDir.walk s.2).map (fun p => s.1 :: p))).flatten := by
  rw [FSDir.walk]
  rw [List.attach_map_val (subdirs.filter (fun s => s.1 ≠ ".git"))
    (fun s => (FSDir.walk s.2).map (fun p => s.1 :: p))]

/-- Environment for `list_files`: observed outcomes of the two subprocess
strategies plus the directory tree seen by the walk fallback. -/
structure ListEnv where
  rg : Option (List Nat)
  git : Option (List Nat)
  fs : FSDir

/-- `list_files`: `rg --files -0`, else `git ls-files -z`, else the walk. -/
def list_files (decode : List Nat → List String) (env : ListEnv) :
    List (List String) :=
  match run_file_list_command decode env.rg with
  | some files => files
  | none =>
    match run_file_list_command decode env.git with
    | some files => files
    | none => env.fs.walk

/-- Parsed command-line flags (`--root` is resolved into `Env`). -/
structure Args where
  code_only : Bool
  include_self : Bool
deriving DecidableEq

/-- One path from `list_files` with the filesystem observations the script
makes for it: `(root / rel_path).resolve()`, `full_path.is_file()`, and
whether the open-and-read in `count_newlines` succeeds with these bytes. -/
structure FileEntry where
  relPath : List String
  resolvedAbs : String
  isFile : Bool
  readable : Bool
  content : List Nat
deriving DecidableEq

/-- Environment for `main`: the resolved root, `Path(__file__).resolve()`,
and the listed files. -/
structure Env where
  rootExists : Bool
  rootStr : String
  selfPath : String
  files : List FileEntry
deriving DecidableEq

/-- `totals[lang] += n` on a `defaultdict(int)`: Python dicts preserve
insertion order, so an absent key is appended at the end. -/
def addTotal (totals : List (String × Nat)) (lang : String) (n : Nat) :
    List (String × Nat) :=
  if totals.any (fun p => p.1 == lang) then
    totals.map (fun p => if p.1 == lang then (p.1, p.2 + n) else p)
  else totals ++ [(lang, n)]

/-- The `for rel_path in list_files(root)` loop of `main`: unclassified
files, the tool's own file (without `--include-self`), and non-regular
files are skipped; a failing open/read is an uncaught exception. -/
def accumulate (a : Args) (selfPath : String) :
    List FileEntry → List (String × Nat) → Except Unit (List (String × Nat))
  | [], totals => .ok totals
  | f :: fs, totals =>
    match language_for_path f.relPath with
    | none => accumulate a selfPath fs totals
    | some lang =>
      if a.include_self = false ∧ f.resolvedAbs = selfPath then
        accumulate a selfPath fs totals
      else if f.isFile = false then
        accumulate a selfPath fs totals
      else if f.readable then
        accumulate a selfPath fs (addTotal totals lang (count_newlines f.content))
      else .error ()

/-- The order realised by `sorted(..., key=lambda item: item[1],
reverse=True)`: descending on the count, labels ignored. -/
def sortDescRel (x y : String × Nat) : Prop := y.2 ≤ x.2

instance : DecidableRel sortDescRel := fun x y => Nat.decLe y.2 x.2

instance : IsTotal (String × Nat) sortDescRel :=
  ⟨fun a b => Nat.le_total b.2 a.2⟩

instance : IsTrans (String × Nat) sortDescRel :=
  ⟨fun _ _ _ h1 h2 => Nat.le_trans h2 h1⟩

/-- The filter/sort/total steps of `main` after accumulation.  Python's
`sorted` is a stable sort, and a stable sort's output is uniquely
determined by the input order and the key, so the (stable, structural)
insertion sort realises exactly `sorted(..., reverse=True)`. -/
def computeRows (a : Args) (totals : List (String × Nat)) :
    List (String × Nat) :=
  let base :=
    if a.code_only then totals.filter (fun p => CODE_LANGUAGES.contains p.1)
    else totals
  let rows := base.insertionSort sortDescRel
  rows ++ [("TOTAL", (rows.map (fun r => r.2)).sum)]

/-- The three ways a run finishes cleanly. -/
inductive MainOutput : Type where
  | rootMissing : String → MainOutput
  | noMatch : MainOutput
  | table : List (String × Nat) → MainOutput
deriving DecidableEq

namespace Script

/-- `main`, with an uncaught exception modelled as `Except.error`.  (Lean
reserves a bare top-level `main`, hence the `Script` namespace.) -/
def main (a : Args) (env : Env) : Except Unit MainOutput :=
  if env.rootExists = false then .ok (.rootMissing env.rootStr)
  else
    match accumulate a env.selfPath env.files [] with
    | .error e => .error e
    | .ok totals =>
      if totals = [] then .ok .noMatch
      else .ok (.table (computeRows a totals))

end Script

/-- The process exit code of each clean outcome. -/
def exitCode : MainOutput → Nat
  | .rootMissing _ => 2
  | .noMatch => 1
  | .table _ => 0

/-- `str.ljust`-style padding used by `f"{lang:<{width}}"`. -/
def padRight (s : String) (w : Nat) : String :=
  s ++ String.mk (List.replicate (w - s.length) ' ')

/-- `str.rjust`-style padding used by `f"{lines:>8}"`. -/
def padLeft (s : String) (w : Nat) : String :=
  String.mk (List.replicate (w - s.length) ' ') ++ s

/-- `format_table`.  (Python's `max(...)` raises on an empty generator; the
script only calls this with nonempty `rows`, where the fold from 0 agrees.) -/
def format_table (rows : List (String × Nat)) : String :=
  let width := (rows.map (fun r => r.1.length)).foldl max 0
  String.intercalate "\n"
    (rows.map (fun r => padRight r.1 width ++ "  " ++ padLeft (toString r.2) 8))

/-- Lines printed to standard output by each clean outcome. -/
def stdoutLines : MainOutput → List String
  | .rootMissing _ => []
  | .noMatch => ["No matching files found."]
  | .table rows => [format_table rows]

/-- Lines printed to standard error by each clean outcome. -/
def stderrLines : MainOutput → List String
  | .rootMissing root => ["error: root does not exist: " ++ root]
  | .noMatch => []
  | .table _ => []

/-! ## Helper lemmas -/

theorem accumulate_all_unclassified (a : Args) (selfPath : String) :
    ∀ (fs : List FileEntry) (totals : List (String × Nat)),
      (∀ f ∈ fs, language_for_path f.relPath = none) →
      accumulate a selfPath fs totals = .ok totals := by
  intro fs
  induction fs with
  | nil => intro totals _; rfl
  | cons f fs ih =>
    intro totals h
    have hf := h f (List.mem_cons_self f fs)
    rw [accumulate, hf]
    exact ih totals (fun g hg => h g (List.mem_cons_of_mem f hg))

theorem main_table_inv (a : Args) (env : Env) (rows : List (String × Nat))
    (h : Script.main a env = .ok (.table rows)) :
    env.rootExists = true ∧
      ∃ totals, accumulate a env.selfPath env.files [] = .ok totals ∧
        totals ≠ [] ∧ rows = computeRows a totals := by
  cases hre : env.rootExists with
  | false => rw [Script.main, hre] at h; simp at h
  | true =>
    refine ⟨rfl, ?_⟩
    rw [Script.main, hre] at h
    simp only [Bool.true_eq_false, if_false] at h
    cases hacc : accumulate a env.selfPath env.files [] with
    | error e => rw [hacc] at h; simp at h
    | ok totals =>
      rw [hacc] at h
      have h' : (if totals = [] then Except.ok MainOutput.noMatch
          else Except.ok (MainOutput.table (computeRows a totals))) =
          Except.ok (MainOutput.table rows) := h
      by_cases ht : totals = []
      · rw [if_pos ht] at h'; simp at h'
      · rw [if_neg ht] at h'
        refine ⟨totals, rfl, ht, ?_⟩
        injection h' with h2
        injection h2 with h3
        exact h3.symm

theorem slash_mem_asPosix (a b : String) (t : List String) :
    '/' ∈ (asPosix (a :: b :: t)).data := by
  have he : asPosix (a :: b :: t) = a ++ "/" ++ asPosix (b :: t) := rfl
  rw [he]
  simp only [String.data_append, List.mem_append]
  left; right
  exact List.mem_singleton.mpr rfl

theorem rootLookup_none_of_slash (s : String) (h : '/' ∈ s.data) :
    ROOT_FILENAME_MAP.lookup s = none := by
  have h1 : (s == "CMakeLists.txt") = false := by
    rw [beq_eq_false_iff_ne]
    rintro rfl
    revert h
    decide
  have h2 : (s == "Makefile") = false := by
    rw [beq_eq_false_iff_ne]
    rintro rfl
    revert h
    decide
  simp [ROOT_FILENAME_MAP, List.lookup, h1, h2]

/-! ## Claims -/

/-- C3: for every file content containing exactly `k` newline bytes, the line
counter returns `k` under the script's own 1 MiB chunking and under every
other way of cutting the content into read chunks; bytes after a final
newline never add an extra line, since only newline bytes are counted. -/
theorem claim3_newline_count (content : List Nat) (k : Nat)
    (h : content.count 10 = k) :
    count_newlines content = k ∧
      ∀ chunks : List (List Nat), chunks.flatten = content →
        countNewlinesOfChunks chunks = k := by
  constructor
  · rw [count_newlines_eq_count, h]
  · intro chunks hc
    rw [countNewlinesOfChunks_flatten, hc, h]

theorem claim3_newline_count_witness :
    count_newlines [97, 10, 98, 10, 99] = 2 ∧
      countNewlinesOfChunks [[97, 10], [], [98, 10, 99]] = 2 := by
  have h := claim3_newline_count [97, 10, 98, 10, 99] 2 (by decide)
  exact ⟨h.1, h.2 [[97, 10], [], [98, 10, 99]] (by decide)⟩

/-- C5: the classifier returns the override label exactly when the full POSIX
path string matches an override key (a case-sensitive string lookup);
otherwise it returns the extension table's entry for the lowercased suffix,
`none` when absent; two paths with the same lowercased suffix classify
identically when neither hits the override table; and the result agrees with
the spec's classifier reading and depends only on the path (no file content
is consulted). -/
theorem claim5_classifier (p : List String) :
    language_for_path p = classifySpec ROOT_FILENAME_MAP EXTENSION_MAP p ∧
    (∀ lang, ROOT_FILENAME_MAP.lookup (asPosix p) = some lang →
      language_for_path p = some lang) ∧
    (ROOT_FILENAME_MAP.lookup (asPosix p) = none →
      language_for_path p = EXTENSION_MAP.lookup (pyLower (pySuffix (pathName p)))) ∧
    (∀ q, ROOT_FILENAME_MAP.lookup (asPosix p) = none →
      ROOT_FILENAME_MAP.lookup (asPosix q) = none →
      pyLower (pySuffix (pathName p)) = pyLower (pySuffix (pathName q)) →
      language_for_path p = language_for_path q) := by
  refine ⟨rfl, ?_, ?_, ?_⟩
  · intro lang h
    rw [language_for_path, h]
  · intro h
    rw [language_for_path, h]
  · intro q hp hq hsuf
    rw [language_for_path, hp, language_for_path, hq, hsuf]

theorem claim5_classifier_witness :
    language_for_path ["Makefile"] = some "Makefile" ∧
      language_for_path ["A.PY"] = some "Python" ∧
      language_for_path ["A.PY"] = language_for_path ["b.py"] := by
  refine ⟨(claim5_classifier ["Makefile"]).2.1 "Makefile" (by decide), ?_, ?_⟩
  · exact ((claim5_classifier ["A.PY"]).2.2.1 (by decide)).trans (by decide)
  · exact (claim5_classifier ["A.PY"]).2.2.2 ["b.py"] (by decide) (by decide)
      (by decide)

/-- C9: the override table can only match root-level paths, because every key
is a bare filename while the POSIX string of a path with two or more
components contains a slash; hence a `Makefile` in any subdirectory is
unclassified (its suffix is empty) and a `CMakeLists.txt` in any
subdirectory falls through to the `.txt` entry, i.e. `Text`, not CMake. -/
theorem claim9_overrides_root_only :
    (∀ p : List String, 2 ≤ p.length →
      ROOT_FILENAME_MAP.lookup (asPosix p) = none ∧
      language_for_path p =
        EXTENSION_MAP.lookup (pyLower (pySuffix (pathName p)))) ∧
    ∀ d : String,
      language_for_path [d, "Makefile"] = none ∧
      language_for_path [d, "CMakeLists.txt"] = some "Text" := by
  have key : ∀ p : List String, 2 ≤ p.length →
      ROOT_FILENAME_MAP.lookup (asPosix p) = none := by
    intro p hp
    match p, hp with
    | a :: b :: t, _ =>
      exact rootLookup_none_of_slash _ (slash_mem_asPosix a b t)
  have ext : ∀ p : List String, 2 ≤ p.length →
      language_for_path p =
        EXTENSION_MAP.lookup (pyLower (pySuffix (pathName p))) := by
    intro p hp
    rw [language_for_path, key p hp]
  refine ⟨fun p hp => ⟨key p hp, ext p hp⟩, fun d => ⟨?_, ?_⟩⟩
  · refine (ext [d, "Makefile"] (by simp)).trans ?_
    show EXTENSION_MAP.lookup (pyLower (pySuffix "Makefile")) = none
    decide
  · refine (ext [d, "CMakeLists.txt"] (by simp)).trans ?_
    show EXTENSION_MAP.lookup (pyLower (pySuffix "CMakeLists.txt")) = some "Text"
    decide

theorem claim9_overrides_root_only_witness :
    ROOT_FILENAME_MAP.lookup (asPosix ["sub", "x.py"]) = none ∧
      language_for_path ["sub", "Makefile"] = none ∧
      language_for_path ["sub", "CMakeLists.txt"] = some "Text" :=
  ⟨(claim9_overrides_root_only.1 ["sub", "x.py"] (by decide)).1,
   (claim9_overrides_root_only.2 "sub").1,
   (claim9_overrides_root_only.2 "sub").2⟩

/-- C2: whenever a run prints a table (with or without `--code-only`), the
final row is the synthetic `("TOTAL", n)` row and `n` is exactly the sum of
the counts of all rows that precede it. -/
theorem claim2_total_row (a : Args) (env : Env) (rows : List (String × Nat))
    (h : Script.main a env = .ok (.table rows)) :
    ∃ pre, rows = pre ++ [("TOTAL", (pre.map (fun r => r.2)).sum)] := by
  obtain ⟨_, totals, _, _, hrows⟩ := main_table_inv a env rows h
  refine ⟨(if a.code_only then
    totals.filter (fun p => CODE_LANGUAGES.contains p.1)
    else totals).insertionSort sortDescRel, ?_⟩
  rw [hrows]
  rfl

theorem claim2_total_row_witness :
    ∃ pre, [("Python", 3), ("Markdown", 2), ("TOTAL", 5)] =
      pre ++ [("TOTAL", (pre.map (fun r => r.2)).sum)] :=
  claim2_total_row ⟨false, false⟩
    ⟨true, "/r", "/self",
      [⟨["a.py"], "/r/a.py", true, true, [10, 10, 10]⟩,
       ⟨["b.md"], "/r/b.md", true, true, [10, 10]⟩]⟩
    [("Python", 3), ("Markdown", 2), ("TOTAL", 5)] (by decide)

/-- C8: in every printed table the rows before the final `TOTAL` row are in
descending order of count (`sortDescRel`), and they are a permutation of the
accumulated (post-`--code-only`-filter) totals, whose iteration order is the
only tie-break; the `TOTAL` row always comes last. -/
theorem claim8_rows_sorted (a : Args) (env : Env) (rows : List (String × Nat))
    (h : Script.main a env = .ok (.table rows)) :
    ∃ totals pre,
      accumulate a env.selfPath env.files [] = .ok totals ∧
      rows = pre ++ [("TOTAL", (pre.map (fun r => r.2)).sum)] ∧
      pre.Sorted sortDescRel ∧
      pre.Perm (if a.code_only then
        totals.filter (fun p => CODE_LANGUAGES.contains p.1) else totals) := by
  obtain ⟨_, totals, hacc, _, hrows⟩ := main_table_inv a env rows h
  refine ⟨totals, (if a.code_only then
    totals.filter (fun p => CODE_LANGUAGES.contains p.1)
    else totals).insertionSort sortDescRel, hacc, ?_, ?_, ?_⟩
  · rw [hrows]; rfl
  · exact List.sorted_insertionSort sortDescRel _
  · exact List.perm_insertionSort sortDescRel _

theorem claim8_rows_sorted_witness :
    ∃ totals pre,
      accumulate ⟨false, false⟩ "/self"
          [⟨["b.md"], "/r/b.md", true, true, [10]⟩,
           ⟨["a.py"], "/r/a.py", true, true, [10, 10]⟩] [] = .ok totals ∧
        [("Python", 2), ("Markdown", 1), ("TOTAL", 3)] =
          pre ++ [("TOTAL", (pre.map (fun r => r.2)).sum)] ∧
        pre.Sorted sortDescRel ∧
        pre.Perm (if (false : Bool) then
          totals.filter (fun p => CODE_LANGUAGES.contains p.1) else totals) :=
  claim8_rows_sorted ⟨false, false⟩
    ⟨true, "/r", "/self",
      [⟨["b.md"], "/r/b.md", true, true, [10]⟩,
       ⟨["a.py"], "/r/a.py", true, true, [10, 10]⟩]⟩
    [("Python", 2), ("Markdown", 1), ("TOTAL", 3)] (by decide)

/-- C10: the zero-match test looks at the totals before the `--code-only`
filter, so a `--code-only` run whose accumulated totals are nonempty but
contain no code language exits 0 with a table holding the single row
`("TOTAL", 0)`, not the no-match message. -/
theorem claim10_code_only_all_filtered (a : Args) (env : Env)
    (totals : List (String × Nat)) (hco : a.code_only = true)
    (hroot : env.rootExists = true)
    (hacc : accumulate a env.selfPath env.files [] = .ok totals)
    (hne : totals ≠ [])
    (hnc : ∀ p ∈ totals, ¬p.1 ∈ CODE_LANGUAGES) :
    Script.main a env = .ok (.table [("TOTAL", 0)]) ∧
      exitCode (.table [("TOTAL", 0)]) = 0 ∧
      Script.main a env ≠ .ok .noMatch := by
  have hfilter : totals.filter (fun p => CODE_LANGUAGES.contains p.1) = [] := by
    rw [List.filter_eq_nil_iff]
    intro p hp
    simpa using hnc p hp
  have hrows : computeRows a totals = [("TOTAL", 0)] := by
    simp only [computeRows, hco, eq_self_iff_true, if_true, hfilter]
    rfl
  have hmain : Script.main a env = .ok (.table [("TOTAL", 0)]) := by
    rw [Script.main, hroot]
    simp only [Bool.true_eq_false, if_false]
    rw [hacc]
    show (if totals = [] then Except.ok MainOutput.noMatch
      else Except.ok (MainOutput.table (computeRows a totals))) = _
    rw [if_neg hne, hrows]
  refine ⟨hmain, rfl, ?_⟩
  rw [hmain]
  simp

theorem claim10_code_only_all_filtered_witness :
    Script.main ⟨true, false⟩
        ⟨true, "/r", "/self", [⟨["a.md"], "/r/a.md", true, true, [10, 10]⟩]⟩ =
      .ok (.table [("TOTAL", 0)]) :=
  (claim10_code_only_all_filtered ⟨true, false⟩
    ⟨true, "/r", "/self", [⟨["a.md"], "/r/a.md", true, true, [10, 10]⟩]⟩
    [("Markdown", 2)] rfl rfl (by decide) (by decide) (by decide)).1

/-- C4 (counterexample): a run can list a file that *is* classified into a
known language (`.py` → Python) and still exit 1 — here the only classified
file is the tool's own source, which self-exclusion removes before
accumulation — so "exit 0 whenever at least one listed file was classified"
is false of the code. -/
theorem claim4_counterexample :
    language_for_path ["loc_by_language.py"] = some "Python" ∧
      Script.main ⟨false, false⟩
          ⟨true, "/repo", "/repo/loc_by_language.py",
            [⟨["loc_by_language.py"], "/repo/loc_by_language.py", true, true,
              [10, 10]⟩]⟩ = .ok .noMatch ∧
      exitCode .noMatch = 1 := by
  decide

/-- C4 (amended): exit 2 with the stderr diagnostic when the root does not
exist; otherwise exit 1 printing exactly "No matching files found." when the
accumulated totals are empty — in particular whenever no listed file is
classified — and exit 0 with the table when some file actually contributed
to the totals (classified, not self-excluded, a regular file, readable).
Classification alone does not guarantee exit 0. -/
theorem claim4_amended_exit_codes (a : Args) (env : Env) :
    (env.rootExists = false →
      Script.main a env = .ok (.rootMissing env.rootStr) ∧
      exitCode (.rootMissing env.rootStr) = 2 ∧
      stderrLines (.rootMissing env.rootStr) =
        ["error: root does not exist: " ++ env.rootStr]) ∧
    (∀ totals, env.rootExists = true →
      accumulate a env.selfPath env.files [] = .ok totals → totals ≠ [] →
      Script.main a env = .ok (.table (computeRows a totals)) ∧
      exitCode (.table (computeRows a totals)) = 0) ∧
    (env.rootExists = true →
      accumulate a env.selfPath env.files [] = .ok [] →
      Script.main a env = .ok .noMatch ∧ exitCode .noMatch = 1 ∧
      stdoutLines .noMatch = ["No matching files found."]) ∧
    ((∀ f ∈ env.files, language_for_path f.relPath = none) →
      accumulate a env.selfPath env.files [] = .ok []) := by
  refine ⟨?_, ?_, ?_, ?_⟩
  · intro hroot
    refine ⟨?_, rfl, rfl⟩
    rw [Script.main, hroot]
    rfl
  · intro totals hroot hacc hne
    refine ⟨?_, rfl⟩
    rw [Script.main, hroot]
    simp only [Bool.true_eq_false, if_false]
    rw [hacc]
    show (if totals = [] then Except.ok MainOutput.noMatch
      else Except.ok (MainOutput.table (computeRows a totals))) = _
    rw [if_neg hne]
  · intro hroot hacc
    refine ⟨?_, rfl, rfl⟩
    rw [Script.main, hroot]
    simp only [Bool.true_eq_false, if_false]
    rw [hacc]
    rfl
  · exact accumulate_all_unclassified a env.selfPath env.files []

theorem claim4_amended_exit_codes_witness :
    Script.main ⟨false, false⟩ ⟨false, "/nope", "/self", []⟩ =
        .ok (.rootMissing "/nope") ∧
      Script.main ⟨false, false⟩
          ⟨true, "/r", "/self", [⟨["a.py"], "/r/a.py", true, true, [10]⟩]⟩ =
        .ok (.table (computeRows ⟨false, false⟩ [("Python", 1)])) ∧
      Script.main ⟨false, false⟩
          ⟨true, "/r", "/self", [⟨["README"], "/r/README", true, true, [10]⟩]⟩ =
        .ok .noMatch ∧
      accumulate ⟨false, false⟩ "/self"
          [⟨["README"], "/r/README", true, true, [10]⟩] [] = .ok [] := by
  refine ⟨?_, ?_, ?_, ?_⟩
  · exact ((claim4_amended_exit_codes ⟨false, false⟩
      ⟨false, "/nope", "/self", []⟩).1 rfl).1
  · exact ((claim4_amended_exit_codes ⟨false, false⟩
      ⟨true, "/r", "/self", [⟨["a.py"], "/r/a.py", true, true, [10]⟩]⟩).2.1
      [("Python", 1)] rfl (by decide) (by decide)).1
  · exact ((claim4_amended_exit_codes ⟨false, false⟩
      ⟨true, "/r", "/self", [⟨["README"], "/r/README", true, true, [10]⟩]⟩).2.2.1
      rfl (by decide)).1
  · exact (claim4_amended_exit_codes ⟨false, false⟩
      ⟨true, "/r", "/self", [⟨["README"], "/r/README", true, true, [10]⟩]⟩).2.2.2
      (by decide)

theorem accumulate_cons_none (a : Args) (selfPath : String) (f : FileEntry)
    (fs : List FileEntry) (totals : List (String × Nat))
    (hl : language_for_path f.relPath = none) :
    accumulate a selfPath (f :: fs) totals = accumulate a selfPath fs totals := by
  have he : accumulate a selfPath (f :: fs) totals =
      match language_for_path f.relPath with
      | none => accumulate a selfPath fs totals
      | some lang =>
        if a.include_self = false ∧ f.resolvedAbs = selfPath then
          accumulate a selfPath fs totals
        else if f.isFile = false then accumulate a selfPath fs totals
        else if f.readable then
          accumulate a selfPath fs (addTotal totals lang (count_newlines f.content))
        else .error () := rfl
  rw [he, hl]

theorem accumulate_cons_some (a : Args) (selfPath : String) (f : FileEntry)
    (fs : List FileEntry) (totals : List (String × Nat)) (lang : String)
    (hl : language_for_path f.relPath = some lang) :
    accumulate a selfPath (f :: fs) totals =
      if a.include_self = false ∧ f.resolvedAbs = selfPath then
        accumulate a selfPath fs totals
      else if f.isFile = false then accumulate a selfPath fs totals
      else if f.readable then
        accumulate a selfPath fs (addTotal totals lang (count_newlines f.content))
      else .error () := by
  have he : accumulate a selfPath (f :: fs) totals =
      match language_for_path f.relPath with
      | none => accumulate a selfPath fs totals
      | some lang =>
        if a.include_self = false ∧ f.resolvedAbs = selfPath then
          accumulate a selfPath fs totals
        else if f.isFile = false then accumulate a selfPath fs totals
        else if f.readable then
          accumulate a selfPath fs (addTotal totals lang (count_newlines f.content))
        else .error () := rfl
  rw [he, hl]

/-- C6: without `--include-self`, a listed file whose resolved absolute path
equals the tool's own resolved path is skipped outright, contributing
nothing to the totals; with `--include-self`, the loop treats it exactly as
it would the same entry with any other resolved path. -/
theorem claim6_self_exclusion (a : Args) (selfPath : String) (f : FileEntry)
    (fs : List FileEntry) (totals : List (String × Nat)) :
    (a.include_self = false → f.resolvedAbs = selfPath →
      accumulate a selfPath (f :: fs) totals = accumulate a selfPath fs totals) ∧
    (a.include_self = true → ∀ s : String,
      accumulate a selfPath (f :: fs) totals =
        accumulate a selfPath ({ f with resolvedAbs := s } :: fs) totals) := by
  constructor
  · intro hinc hself
    cases hl : language_for_path f.relPath with
    | none => exact accumulate_cons_none a selfPath f fs totals hl
    | some lang =>
      rw [accumulate_cons_some a selfPath f fs totals lang hl]
      rw [if_pos ⟨hinc, hself⟩]
  · intro hinc s
    cases hl : language_for_path f.relPath with
    | none =>
      rw [accumulate_cons_none a selfPath f fs totals hl,
        accumulate_cons_none a selfPath { f with resolvedAbs := s } fs totals hl]
    | some lang =>
      rw [accumulate_cons_some a selfPath f fs totals lang hl,
        accumulate_cons_some a selfPath { f with resolvedAbs := s } fs totals
          lang hl]
      simp [hinc]

theorem claim6_self_exclusion_witness :
    accumulate ⟨false, false⟩ "/self"
        [⟨["a.py"], "/self", true, true, [10]⟩] [] = .ok [] ∧
      accumulate ⟨false, true⟩ "/self"
          [⟨["a.py"], "/self", true, true, [10]⟩] [] =
        accumulate ⟨false, true⟩ "/self"
          [⟨["a.py"], "/other", true, true, [10]⟩] [] := by
  constructor
  · exact ((claim6_self_exclusion ⟨false, false⟩ "/self"
      ⟨["a.py"], "/self", true, true, [10]⟩ [] []).1 rfl rfl).trans rfl
  · exact (claim6_self_exclusion ⟨false, true⟩ "/self"
      ⟨["a.py"], "/self", true, true, [10]⟩ [] []).2 rfl "/other"

/-- C1 (counterexample): a classified, regular, but unreadable file (for
example one the user lacks read permission on) makes the run abort with an
uncaught exception — it is not silently skipped — so the claim's
"permissions error … the run does not abort" is false of the code. -/
theorem claim1_counterexample :
    language_for_path ["data.py"] = some "Python" ∧
      Script.main ⟨false, false⟩
          ⟨true, "/r", "/self", [⟨["data.py"], "/r/data.py", true, false, []⟩]⟩ =
        .error () := by
  decide

/-- C1 (amended): a listed classified file that fails the `is_file` check
(vanished before the check, or not a regular file) is silently skipped and
contributes zero lines; but when a classified, non-self-excluded entry
passes the `is_file` check and its open/read then fails (permissions, or a
vanish race after the check), `count_newlines` raises and the run aborts. -/
theorem claim1_amended_read_errors (a : Args) (selfPath : String)
    (f : FileEntry) (fs : List FileEntry) (totals : List (String × Nat)) :
    (f.isFile = false →
      accumulate a selfPath (f :: fs) totals = accumulate a selfPath fs totals) ∧
    (∀ lang, language_for_path f.relPath = some lang →
      ¬(a.include_self = false ∧ f.resolvedAbs = selfPath) →
      f.isFile = true → f.readable = false →
      accumulate a selfPath (f :: fs) totals = .error ()) := by
  constructor
  · intro hnf
    cases hl : language_for_path f.relPath with
    | none => exact accumulate_cons_none a selfPath f fs totals hl
    | some lang =>
      rw [accumulate_cons_some a selfPath f fs totals lang hl]
      by_cases hself : a.include_self = false ∧ f.resolvedAbs = selfPath
      · rw [if_pos hself]
      · rw [if_neg hself, if_pos hnf]
  · intro lang hl hself hisf hread
    rw [accumulate_cons_some a selfPath f fs totals lang hl, if_neg hself]
    rw [if_neg (by simp [hisf]), if_neg (by simp [hread])]

theorem claim1_amended_read_errors_witness :
    accumulate ⟨false, false⟩ "/self"
        [⟨["gone.py"], "/r/gone.py", false, false, []⟩] [] = .ok [] ∧
      accumulate ⟨false, false⟩ "/self"
          [⟨["locked.py"], "/r/locked.py", true, false, []⟩] [] = .error () := by
  constructor
  · exact ((claim1_amended_read_errors ⟨false, false⟩ "/self"
      ⟨["gone.py"], "/r/gone.py", false, false, []⟩ [] []).1 rfl).trans rfl
  · exact (claim1_amended_read_errors ⟨false, false⟩ "/self"
      ⟨["locked.py"], "/r/locked.py", true, false, []⟩ [] []).2 "Python"
      (by decide) (by decide) rfl rfl

/-- C7: the lister tries its strategies in a fixed order and the first
success wins — when `rg --files -0` runs and exits zero its parsed output is
the answer and `git` is never consulted; when it is unavailable or fails,
`git ls-files -z` is parsed the same way; when both fail, the result is the
manual recursive walk, whose output contains exactly the files of the tree
as root-relative paths, descending only into subdirectories not named
`.git`. -/
theorem claim7_fallback_chain (decode : List Nat → List String)
    (env : ListEnv) :
    (∀ out, env.rg = some out →
      list_files decode env = ((splitOnZero out).filter (· ≠ [])).map decode) ∧
    (env.rg = none → ∀ out, env.git = some out →
      list_files decode env = ((splitOnZero out).filter (· ≠ [])).map decode) ∧
    (env.rg = none → env.git = none → list_files decode env = env.fs.walk) ∧
    (∀ (subdirs : List (String × FSDir)) (files : List String)
        (p : List String),
      p ∈ FSDir.walk (.mk subdirs files) ↔
        (∃ f ∈ files, p = [f]) ∨
          ∃ s ∈ subdirs, s.1 ≠ ".git" ∧ ∃ q ∈ FSDir.walk s.2, p = s.1 :: q) := by
  refine ⟨?_, ?_, ?_, ?_⟩
  · intro out h
    rw [list_files, h]
    rfl
  · intro hrg out h
    rw [list_files, hrg, run_file_list_command, h]
    rfl
  · intro hrg hgit
    rw [list_files, hrg, run_file_list_command, hgit]
    rfl
  · intro subdirs files p
    rw [FSDir.walk_eq]
    simp only [List.mem_append, List.mem_map, List.mem_flatten, List.mem_filter]
    constructor
    · rintro (⟨f, hf, rfl⟩ | ⟨l, ⟨⟨sd, hsd, rfl⟩, hp⟩⟩)
      · exact Or.inl ⟨f, hf, rfl⟩
      · obtain ⟨q, hq, rfl⟩ := List.mem_map.mp hp
        refine Or.inr ⟨sd, hsd.1, by simpa using hsd.2, q, hq, rfl⟩
    · rintro (⟨f, hf, rfl⟩ | ⟨sd, hsd, hgit, q, hq, rfl⟩)
      · exact Or.inl ⟨f, hf, rfl⟩
      · refine Or.inr ⟨(FSDir.walk sd.2).map (fun p => sd.1 :: p),
          ⟨sd, ⟨hsd, by simpa using hgit⟩, rfl⟩, ?_⟩
        exact List.mem_map.mpr ⟨q, hq, rfl⟩

theorem claim7_fallback_chain_witness :
    list_files (fun bs => [String.mk (bs.map Char.ofNat)])
        ⟨some [97, 0, 98], some [99, 0], .mk [] ["ignored"]⟩ = [["a"], ["b"]] ∧
      list_files (fun bs => [String.mk (bs.map Char.ofNat)])
          ⟨none, some [99, 0], .mk [] ["ignored"]⟩ = [["c"]] ∧
      list_files (fun bs => [String.mk (bs.map Char.ofNat)])
          ⟨none, none, .mk [(".git", .mk [] ["hidden"]), ("s", .mk [] ["f.py"])]
            ["top.c"]⟩ =
        FSDir.walk (.mk [(".git", .mk [] ["hidden"]), ("s", .mk [] ["f.py"])]
          ["top.c"]) ∧
      (["s", "f.py"] ∈ FSDir.walk
        (.mk [(".git", .mk [] ["hidden"]), ("s", .mk [] ["f.py"])] ["top.c"])) := by
  refine ⟨?_, ?_, ?_, ?_⟩
  · exact ((claim7_fallback_chain (fun bs => [String.mk (bs.map Char.ofNat)])
      ⟨some [97, 0, 98], some [99, 0], .mk [] ["ignored"]⟩).1
      [97, 0, 98] rfl).trans (by decide)
  · exact ((claim7_fallback_chain (fun bs => [String.mk (bs.map Char.ofNat)])
      ⟨none, some [99, 0], .mk [] ["ignored"]⟩).2.1 rfl [99, 0] rfl).trans
      (by decide)
  · exact (claim7_fallback_chain (fun bs => [String.mk (bs.map Char.ofNat)])
      ⟨none, none, .mk [(".git", .mk [] ["hidden"]), ("s", .mk [] ["f.py"])]
        ["top.c"]⟩).2.2.1 rfl rfl
  · exact ((claim7_fallback_chain (fun bs => [String.mk (bs.map Char.ofNat)])
      ⟨none, none, .mk [] []⟩).2.2.2
      [(".git", .mk [] ["hidden"]), ("s", .mk [] ["f.py"])] ["top.c"]
      ["s", "f.py"]).mpr
      (Or.inr ⟨("s", .mk [] ["f.py"]), by simp, by simp,
        ["f.py"], by rw [FSDir.walk_eq]; simp, rfl⟩)
